import Mathlib

/-!
# Verification of the procedural terrain noise/height-field core

Shallow embedding, over `ℚ`, of the noise synthesis core of the repository:

* `perlin-noise.ts` (`PerlinNoise`: fixed reference permutation table, `fade`,
  `lerp`, `grad`, `noise`);
* `terrain-generator.ts` (`TerrainGenerator.fbm`, appearing identically in
  `part_006` and `part_012`);
* `part_011` (seeded `PerlinNoise._build` / `_noise` / `fbm`, `buildTerrain`
  min/max scan, `biomeColor` and the normalisation in the fragment shaders);
* `fragment-shader.ts` (`biomeColor` and the `main` normalisation).

JavaScript numbers are IEEE doubles; every double is a rational number, and the
claims under verification are claims about the ideal (exact) arithmetic of the
algorithms, so the field `ℚ` is used as the carrier: every definition below is
executable and every concrete instance can be settled by `decide`/`norm_num`.
The one float-specific behaviour that `ℚ` cannot express silently — division by
zero producing NaN/undefined results — is modelled explicitly with `Option`
(`none` = undefined result) where it matters, never by Lean's `x / 0 = 0`
convention.
-/

/-- Quintic fade curve from `perlin-noise.ts` / `part_011`:
`t * t * t * (t * (t * 6 - 15) + 10)`. -/
def fade (t : ℚ) : ℚ :=
  t * t * t * (t * (t * 6 - 15) + 10)

/-- Linear interpolation from `perlin-noise.ts` / `part_011`:
`a + t * (b - a)` (also the semantics of GLSL `mix`). -/
def lerp (a b t : ℚ) : ℚ :=
  a + t * (b - a)

/-- The fixed reference permutation `p` of `perlin-noise.ts` (Ken Perlin's
classic 256-entry table), copied verbatim from the source. -/
def pFix : List ℕ :=
  [151, 160, 137, 91, 90, 15, 131, 13, 201, 95, 96, 53, 194, 233, 7, 225, 140, 36, 103, 30,
   69, 142, 8, 99, 37, 240, 21, 10, 23, 190, 6, 148, 247, 120, 234, 75, 0, 26, 197, 62, 94,
   252, 219, 203, 117, 35, 11, 32, 57, 177, 33, 88, 237, 149, 56, 87, 174, 20, 125, 136,
   171, 168, 68, 175, 74, 165, 71, 134, 139, 48, 27, 166, 77, 146, 158, 231, 83, 111, 229,
   122, 60, 211, 133, 230, 220, 105, 92, 41, 55, 46, 245, 40, 244, 102, 143, 54, 65, 25,
   63, 161, 1, 216, 80, 73, 209, 76, 132, 187, 208, 89, 18, 169, 200, 196, 135, 130, 116,
   188, 159, 86, 164, 100, 109, 198, 173, 186, 3, 64, 52, 217, 226, 250, 124, 123, 5, 202,
   38, 147, 118, 126, 255, 82, 85, 212, 207, 206, 59, 227, 47, 16, 58, 17, 182, 189, 28, 42,
   223, 183, 170, 213, 119, 248, 152, 2, 44, 154, 163, 70, 221, 153, 101, 155, 167, 43,
   172, 9, 129, 22, 39, 253, 19, 98, 108, 110, 79, 113, 224, 232, 178, 185, 112, 104, 218,
   246, 97, 228, 251, 34, 242, 193, 238, 210, 144, 12, 191, 179, 162, 241, 81, 51, 145,
   235, 249, 14, 239, 107, 49, 192, 214, 31, 181, 199, 106, 157, 184, 84, 204, 176, 115,
   121, 50, 45, 127, 4, 150, 254, 138, 236, 205, 93, 222, 114, 67, 29, 24, 72, 243, 141,
   128, 195, 78, 66, 215, 61, 156, 180]

/-- The doubled working table `perm` of `perlin-noise.ts`: the constructor loop
`for i in 0..255: perm[i] = perm[i+256] = p[i]` fills a 512-entry array with two
copies of `p`, which is exactly `pFix ++ pFix`. -/
def permFix : List ℕ :=
  pFix ++ pFix

/-- `PerlinNoise.grad` from `perlin-noise.ts`:
`h = hash & 3; u = h < 2 ? x : y; v = h < 2 ? y : x;`
`((h & 1) ? -u : u) + ((h & 2) ? -v : v)` (a JavaScript number is truthy
when nonzero, so `(h & k)` as a condition means `h &&& k ≠ 0`). -/
def grad (hash : ℕ) (x y : ℚ) : ℚ :=
  let h := hash &&& 3
  let u := if h < 2 then x else y
  let v := if h < 2 then y else x
  (if h &&& 1 ≠ 0 then -u else u) + (if h &&& 2 ≠ 0 then -v else v)

/-- `PerlinNoise.noise` from `perlin-noise.ts`.  `Math.floor(x) & 255` takes
the low 8 bits of the (two's-complement) floor, i.e. `⌊x⌋ mod 256`; the
fractional offsets are `x - ⌊x⌋`.  Table lookups use the doubled `permFix`. -/
def noiseTS (x y : ℚ) : ℚ :=
  let X : ℕ := ((⌊x⌋ : ℤ) % 256).toNat
  let Y : ℕ := ((⌊y⌋ : ℤ) % 256).toNat
  let xf : ℚ := x - ⌊x⌋
  let yf : ℚ := y - ⌊y⌋
  let u := fade xf
  let v := fade yf
  let a := permFix.getD X 0 + Y
  let aa := permFix.getD a 0
  let ab := permFix.getD (a + 1) 0
  let b := permFix.getD (X + 1) 0 + Y
  let ba := permFix.getD b 0
  let bb := permFix.getD (b + 1) 0
  lerp
    (lerp (grad (permFix.getD aa 0) xf yf) (grad (permFix.getD ba 0) (xf - 1) yf) u)
    (lerp (grad (permFix.getD ab 0) xf (yf - 1)) (grad (permFix.getD bb 0) (xf - 1) (yf - 1)) u)
    v

/-- The record destructured by `TerrainGenerator.fbm` (`part_006`/`part_012`):
`{octaves, persistence, lacunarity, scale}`.  `octaves` drives a
`for (i = 0; i < octaves; i++)` loop, so it is modelled as `ℕ` (any
non-positive JavaScript value runs the loop zero times). -/
structure FBMParameters where
  octaves : ℕ
  persistence : ℚ
  lacunarity : ℚ
  scale : ℚ

/-- The fBm accumulation loop shared verbatim by `TerrainGenerator.fbm`
(`part_006`/`part_012`) and `PerlinNoise.fbm` (`part_011`):

`value += noise(x*frequency, y*frequency) * amplitude; maxAmp += amplitude;`
`amplitude *= persistence; frequency *= lacunarity;`

run down from the remaining octave count, carrying the four loop variables
`(value, amplitude, frequency, maxAmp)` exactly as the source does (the loop
index itself is not used by the body).  Returns the final `(value, maxAmp)`. -/
def fbmLoop (noise : ℚ → ℚ → ℚ) (x y persistence lacunarity : ℚ) :
    ℕ → ℚ → ℚ → ℚ → ℚ → ℚ × ℚ
  | 0, value, _, _, maxAmp => (value, maxAmp)
  | n + 1, value, amplitude, frequency, maxAmp =>
      fbmLoop noise x y persistence lacunarity n
        (value + noise (x * frequency) (y * frequency) * amplitude)
        (amplitude * persistence)
        (frequency * lacunarity)
        (maxAmp + amplitude)

/-- The final `(value, maxAmp)` pair of `TerrainGenerator.fbm`: loop started
with `value = 0, amplitude = 1, frequency = scale, maxAmp = 0`. -/
def fbmLoopResult (noise : ℚ → ℚ → ℚ) (x y : ℚ) (p : FBMParameters) : ℚ × ℚ :=
  fbmLoop noise x y p.persistence p.lacunarity p.octaves 0 1 p.scale 0

/-- `TerrainGenerator.fbm` from `part_006`/`part_012`: the loop above followed
by `return value / maxAmp`.  The underlying `noise` is a parameter because the
source receives its `PerlinNoise` instance by constructor injection. -/
def fbm006 (noise : ℚ → ℚ → ℚ) (x y : ℚ) (p : FBMParameters) : ℚ :=
  let r := fbmLoopResult noise x y p
  r.1 / r.2

/-- `PerlinNoise.fbm` from `part_011` (lines 37–46), the same loop but with
`freq` starting at `1` and the octave/persistence/lacunarity passed as plain
arguments; parameterised by the underlying `_noise` function. -/
def fbm011Gen (noise : ℚ → ℚ → ℚ) (x y : ℚ) (octaves : ℕ)
    (persistence lacunarity : ℚ) : ℚ :=
  let r := fbmLoop noise x y persistence lacunarity octaves 0 1 1 0
  r.1 / r.2

/-- One step of the linear congruential generator in `PerlinNoise._build`
(`part_011`): `s = Math.imul(s, 1664525) + 1013904223 >>> 0`.  For
`s < 2^32`, `Math.imul` is the 32-bit product interpreted as a signed
integer and `>>> 0` reinterprets the sum as an unsigned 32-bit integer;
the two wrap-arounds compose to arithmetic modulo `2^32`. -/
def lcgStep (s : ℕ) : ℕ :=
  (1664525 * s + 1013904223) % 2 ^ 32

/-- The destructuring swap `[p[i], p[j]] = [p[j], p[i]]` of `part_011`:
both reads happen before either write. -/
def swapL (l : List ℕ) (i j : ℕ) : List ℕ :=
  let a := l.getD i 0
  let b := l.getD j 0
  (l.set i b).set j a

/-- The Fisher–Yates loop of `PerlinNoise._build` (`part_011`):
`for (i = 255; i > 0; i--) { s = lcgStep s; j = s % (i + 1); swap p[i] p[j] }`,
here recursing on the loop counter `i` (the `0` case is the exit
condition `i > 0` failing). -/
def shuffleFrom : List ℕ → ℕ → ℕ → List ℕ
  | l, _, 0 => l
  | l, s, i + 1 =>
      let s2 := lcgStep s
      let j := s2 % (i + 1 + 1)
      shuffleFrom (swapL l (i + 1) j) s2 i

/-- The local `p` of `PerlinNoise._build(seed)` (`part_011`): seed state
`s = (seed || 42) >>> 0` (a zero seed falls back to `42`; `>>> 0` is
reduction modulo `2^32` on integers), then the Fisher–Yates shuffle of
`[0, …, 255]` driven by the LCG. -/
def buildTableHalf (seed : ℤ) : List ℕ :=
  shuffleFrom (List.range 256) (((if seed = 0 then 42 else seed) % 2 ^ 32).toNat) 255

/-- `PerlinNoise._build(seed)` from `part_011`: the shuffled permutation `p`,
doubled by `return [...p, ...p]`. -/
def buildTable (seed : ℤ) : List ℕ :=
  buildTableHalf seed ++ buildTableHalf seed

/-- The twelve 3-D gradient directions `grad3` of `part_011`. -/
def grad3 : List (ℚ × ℚ × ℚ) :=
  [(1, 1, 0), (-1, 1, 0), (1, -1, 0), (-1, -1, 0),
   (1, 0, 1), (-1, 0, 1), (1, 0, -1), (-1, 0, -1),
   (0, 1, 1), (0, -1, 1), (0, 1, -1), (0, -1, -1)]

/-- `dot2(g, x, y) = g[0]*x + g[1]*y` from `part_011`. -/
def dot2 (g : ℚ × ℚ × ℚ) (x y : ℚ) : ℚ :=
  g.1 * x + g.2.1 * y

/-- `PerlinNoise._noise` from `part_011`, over a given doubled permutation
table `perm` (the instance field built by `_build`). -/
def noise011 (perm : List ℕ) (x y : ℚ) : ℚ :=
  let X : ℕ := ((⌊x⌋ : ℤ) % 256).toNat
  let Y : ℕ := ((⌊y⌋ : ℤ) % 256).toNat
  let xf : ℚ := x - ⌊x⌋
  let yf : ℚ := y - ⌊y⌋
  let u := fade xf
  let v := fade yf
  let a := perm.getD X 0 + Y
  let b := perm.getD (X + 1) 0 + Y
  lerp
    (lerp (dot2 (grad3.getD (perm.getD a 0 % 12) (0, 0, 0)) xf yf)
          (dot2 (grad3.getD (perm.getD b 0 % 12) (0, 0, 0)) (xf - 1) yf) u)
    (lerp (dot2 (grad3.getD (perm.getD (a + 1) 0 % 12) (0, 0, 0)) xf (yf - 1))
          (dot2 (grad3.getD (perm.getD (b + 1) 0 % 12) (0, 0, 0)) (xf - 1) (yf - 1)) u)
    v

/-- The seeded fBm of `part_011` at the public interface: a `PerlinNoise`
constructed from `seed`, its `_noise` fed into its `fbm`. -/
def fbmSeeded (seed : ℤ) (x y : ℚ) (octaves : ℕ) (persistence lacunarity : ℚ) : ℚ :=
  fbm011Gen (noise011 (buildTable seed)) x y octaves persistence lacunarity

/-- `if (h < minH) minH = h` from the min/max scans of `buildTerrain`
(`part_011`) and `initializeScene` (`part_000`), with `none` playing the
role of the `Infinity` sentinel (every finite `h` compares below it). -/
def updateMin (acc : Option ℚ) (h : ℚ) : Option ℚ :=
  match acc with
  | none => some h
  | some m => if h < m then some h else some m

/-- `if (h > maxH) maxH = h` with `none` as the `-Infinity` sentinel. -/
def updateMax (acc : Option ℚ) (h : ℚ) : Option ℚ :=
  match acc with
  | none => some h
  | some m => if m < h then some h else some m

/-- The vertex loop of `buildTerrain` (`part_011`, lines 222–240): for each
index `i` the sampled height `sample i` (in the source,
`noise.fbm(x*scale, z*scale, …) * amplitude` at vertex `i`) is appended to
`heights` and folded into the running `minH`/`maxH`, in a single pass.
Returns `(heights, minH, maxH)`; the two `Option` components are the values
written to the `uMinHeight`/`uMaxHeight` uniforms. -/
def buildTerrain (sample : ℕ → ℚ) (count : ℕ) : List ℚ × Option ℚ × Option ℚ :=
  (List.range count).foldl
    (fun acc i =>
      let h := sample i
      (acc.1 ++ [h], updateMin acc.2.1 h, updateMax acc.2.2 h))
    ([], none, none)

/-- GLSL `clamp(x, lo, hi) = min(max(x, lo), hi)`. -/
def clampG (x lo hi : ℚ) : ℚ :=
  min (max x lo) hi

/-- The height normalisation of the `part_011` fragment shader (line 93):
`t = clamp((vHeight - uMinHeight) / max(uMaxHeight - uMinHeight, 0.001), 0.0, 1.0)`. -/
def tWeb (h mn mx : ℚ) : ℚ :=
  clampG ((h - mn) / max (mx - mn) 0.001) 0 1

/-- The height normalisation of `fragment-shader.ts` (line 73):
`t = clamp((vHeight - uMinHeight) / (uMaxHeight - uMinHeight), 0.0, 1.0)`.
GLSL division by zero yields an unspecified value (NaN/undefined), which `ℚ`
cannot represent, so the zero-denominator case is modelled as `none`. -/
def tFrag (h mn mx : ℚ) : Option ℚ :=
  if mx - mn = 0 then none else some (clampG ((h - mn) / (mx - mn)) 0 1)

/-- A colour is an RGB triple, as GLSL `vec3`. -/
abbrev Color := ℚ × ℚ × ℚ

/-- Componentwise GLSL `mix(a, b, t)`. -/
def mixc (a b : Color) (t : ℚ) : Color :=
  (lerp a.1 b.1 t, lerp a.2.1 b.2.1 t, lerp a.2.2 b.2.2 t)

/-- The palette constants shared by `fragment-shader.ts` and `part_011`. -/
def deepWater : Color := (0.04, 0.12, 0.28)

def water : Color := (0.10, 0.24, 0.50)

def sand : Color := (0.76, 0.70, 0.50)

def grass : Color := (0.22, 0.48, 0.18)

def forest : Color := (0.10, 0.30, 0.10)

def rock : Color := (0.45, 0.42, 0.38)

def snow : Color := (0.92, 0.95, 1.00)

/-- `biomeColor(t)`: the piecewise band classifier, identical in
`fragment-shader.ts` (lines 53–69) and `part_011` (lines 73–90). -/
def biomeColor (t : ℚ) : Color :=
  if t < 0.18 then mixc deepWater water (t / 0.18)
  else if t < 0.25 then mixc water sand ((t - 0.18) / 0.07)
  else if t < 0.38 then mixc sand grass ((t - 0.25) / 0.13)
  else if t < 0.58 then mixc grass forest ((t - 0.38) / 0.20)
  else if t < 0.72 then mixc forest rock ((t - 0.58) / 0.14)
  else if t < 0.88 then mixc rock snow ((t - 0.72) / 0.16)
  else snow

/-- The band table read off the `biomeColor` branches: each entry is
`(start threshold, end threshold, start colour, end colour)`; the last band
`[0.88, 1]` renders the constant `snow`. -/
def bands : List (ℚ × ℚ × Color × Color) :=
  [(0, 0.18, deepWater, water),
   (0.18, 0.25, water, sand),
   (0.25, 0.38, sand, grass),
   (0.38, 0.58, grass, forest),
   (0.58, 0.72, forest, rock),
   (0.72, 0.88, rock, snow),
   (0.88, 1, snow, snow)]

/-- Membership of `t` in band `i`: start ≤ t < end, except that the last
band also owns its right endpoint (`t = 1` belongs to the last band). -/
def bandContains (i : ℕ) (t : ℚ) : Prop :=
  let b := bands.getD i (0, 0, (0, 0, 0), (0, 0, 0))
  b.1 ≤ t ∧ (t < b.2.1 ∨ (i = 6 ∧ t ≤ 1))

/-- The colour the classifier produces inside band `i`: the band-local
linear interpolation, except the last band which is constant `snow`
(its start and end colour). -/
def bandEval (i : ℕ) (t : ℚ) : Color :=
  let b := bands.getD i (0, 0, (0, 0, 0), (0, 0, 0))
  if i = 6 then snow else mixc b.2.2.1 b.2.2.2 ((t - b.1) / (b.2.1 - b.1))

/-- The error of the specification's eager-validation contract. -/
inductive ConfigurationError where
  | invalidFBMParameters
  deriving DecidableEq

/-- Modelled from the spec: the `FractalSynthesizer.sample` contract of
§4.3/§7 — fail with a `ConfigurationError` when `octaves < 1` or
`scale ≤ 0`, before any sampling; otherwise return the fBm value.  This
definition follows the specification's words and exists only to be compared
against the source-translated `fbm006`, which performs no validation. -/
def fbmChecked (noise : ℚ → ℚ → ℚ) (x y : ℚ) (p : FBMParameters) :
    Except ConfigurationError ℚ :=
  if p.octaves < 1 ∨ p.scale ≤ 0 then Except.error ConfigurationError.invalidFBMParameters
  else Except.ok (fbm006 noise x y p)

/-! ## Shared lemmas about the fBm loop -/

/-- `maxAmp` only grows along the loop, as long as the amplitude stays
positive (which `amplitude *= persistence` preserves for positive
persistence). -/
theorem fbmLoop_snd_ge (noise : ℚ → ℚ → ℚ) (x y pers lac : ℚ) (hp : 0 < pers) :
    ∀ (n : ℕ) (v amp f M : ℚ), 0 < amp →
      M ≤ (fbmLoop noise x y pers lac n v amp f M).2 := by
  intro n
  induction n with
  | zero => intro v amp f M _; exact le_refl _
  | succ k ih =>
      intro v amp f M hamp
      simp only [fbmLoop]
      have h1 : M ≤ M + amp := by linarith
      exact h1.trans (ih _ _ _ _ (mul_pos hamp hp))

/-- The accumulated `value` stays bounded by the accumulated `maxAmp`
whenever every noise sample has magnitude at most 1. -/
theorem fbmLoop_abs_le (noise : ℚ → ℚ → ℚ) (x y pers lac : ℚ)
    (hnoise : ∀ a b : ℚ, |noise a b| ≤ 1) (hp : 0 < pers) :
    ∀ (n : ℕ) (v amp f M : ℚ), 0 < amp → |v| ≤ M →
      |(fbmLoop noise x y pers lac n v amp f M).1| ≤
        (fbmLoop noise x y pers lac n v amp f M).2 := by
  intro n
  induction n with
  | zero => intro v amp f M _ hv; exact hv
  | succ k ih =>
      intro v amp f M hamp hv
      simp only [fbmLoop]
      apply ih _ _ _ _ (mul_pos hamp hp)
      have h1 : |noise (x * f) (y * f) * amp| ≤ amp := by
        rw [abs_mul, abs_of_pos hamp]
        have := hnoise (x * f) (y * f)
        nlinarith [abs_nonneg (noise (x * f) (y * f))]
      calc |v + noise (x * f) (y * f) * amp| ≤ |v| + |noise (x * f) (y * f) * amp| :=
            abs_add _ _
        _ ≤ M + amp := by linarith

/-- Changing the starting frequency from `s * f` to `f` is the same as
pre-scaling the coordinates by `s` (compare C10). -/
theorem fbmLoop_rescale (noise : ℚ → ℚ → ℚ) (x y pers lac s : ℚ) :
    ∀ (n : ℕ) (v amp f M : ℚ),
      fbmLoop noise x y pers lac n v amp (s * f) M =
      fbmLoop noise (x * s) (y * s) pers lac n v amp f M := by
  intro n
  induction n with
  | zero => intro v amp f M; rfl
  | succ k ih =>
      intro v amp f M
      simp only [fbmLoop]
      rw [(by ring : x * (s * f) = x * s * f), (by ring : y * (s * f) = y * s * f),
        (by ring : s * f * lac = s * (f * lac))]
      exact ih _ _ (f * lac) _

/-! ## C1 -/

/-- C1: for every coordinate and every `FBMParameters` with `octaves ≥ 1` and
`0 < persistence ≤ 1`, the fBm result — the running octave sum divided by the
amplitude sum `maxAmp` — has magnitude at most 1, provided the per-octave
noise values are themselves bounded in magnitude by 1 (the proviso the claim
itself states for the underlying gradient-noise evaluation). -/
theorem fbm_normalized_bounded (noise : ℚ → ℚ → ℚ)
    (hnoise : ∀ a b : ℚ, |noise a b| ≤ 1)
    (x y : ℚ) (octaves : ℕ) (persistence lacunarity scale : ℚ)
    (hoct : 1 ≤ octaves) (hp : 0 < persistence) (hp1 : persistence ≤ 1) :
    |fbm006 noise x y ⟨octaves, persistence, lacunarity, scale⟩| ≤ 1 := by
  obtain ⟨k, rfl⟩ : ∃ k, octaves = k + 1 := ⟨octaves - 1, by omega⟩
  have habs : |(fbmLoopResult noise x y ⟨k + 1, persistence, lacunarity, scale⟩).1| ≤
      (fbmLoopResult noise x y ⟨k + 1, persistence, lacunarity, scale⟩).2 :=
    fbmLoop_abs_le noise x y persistence lacunarity hnoise hp (k + 1) 0 1 scale 0
      one_pos (by simp)
  have hone : (1 : ℚ) ≤ (fbmLoopResult noise x y ⟨k + 1, persistence, lacunarity, scale⟩).2 := by
    have hstep : fbmLoopResult noise x y ⟨k + 1, persistence, lacunarity, scale⟩ =
        fbmLoop noise x y persistence lacunarity k
          (0 + noise (x * scale) (y * scale) * 1) (1 * persistence) (scale * lacunarity)
          (0 + 1) := rfl
    rw [hstep]
    have := fbmLoop_snd_ge noise x y persistence lacunarity hp k
      (0 + noise (x * scale) (y * scale) * 1) (1 * persistence) (scale * lacunarity)
      (0 + 1) (by simpa using hp)
    linarith
  have hpos : (0 : ℚ) < (fbmLoopResult noise x y ⟨k + 1, persistence, lacunarity, scale⟩).2 := by
    linarith
  show |(fbmLoopResult noise x y ⟨k + 1, persistence, lacunarity, scale⟩).1 /
      (fbmLoopResult noise x y ⟨k + 1, persistence, lacunarity, scale⟩).2| ≤ 1
  rw [abs_div, abs_of_pos hpos, div_le_one hpos]
  exact habs

/-- Witness for C1: the bound holds at the concrete instance
`noise = 0, (x, y) = (0, 0), octaves = 1, persistence = 1, lacunarity = 2,
scale = 1`. -/
theorem fbm_normalized_bounded_witness :
    |fbm006 (fun _ _ => (0 : ℚ)) 0 0 ⟨1, 1, 2, 1⟩| ≤ 1 :=
  fbm_normalized_bounded (fun _ _ => 0) (fun _ _ => by norm_num) 0 0 1 1 2 1
    (by norm_num) (by norm_num) (by norm_num)

/-! ## C7 -/

/-- C7: with `octaves = 1` the fBm degenerates to a single noise sample at
the base frequency divided by `maxAmp = 1`:
`fbm(x, y, {octaves := 1, persistence, lacunarity, scale}) = noise (x*scale) (y*scale)`,
for every persistence, lacunarity and scale. -/
theorem fbm_single_octave (noise : ℚ → ℚ → ℚ) (x y persistence lacunarity scale : ℚ) :
    fbm006 noise x y ⟨1, persistence, lacunarity, scale⟩ =
      noise (x * scale) (y * scale) := by
  show (fbmLoop noise x y persistence lacunarity 1 0 1 scale 0).1 /
      (fbmLoop noise x y persistence lacunarity 1 0 1 scale 0).2 =
    noise (x * scale) (y * scale)
  simp [fbmLoop]

/-! ## C10 -/

/-- C10: the two fBm formulations agree when driven by the same underlying
noise: the `part_006` variant, whose frequency starts at `scale`, equals the
`part_011` variant, whose frequency starts at `1`, applied to the pre-scaled
coordinates `(x*scale, y*scale)` — at every octave
`(x*scale)*lacunarity^i = x*(scale*lacunarity^i)`. -/
theorem fbm_scaled_eq_fbm_unit (noise : ℚ → ℚ → ℚ) (x y : ℚ) (octaves : ℕ)
    (persistence lacunarity scale : ℚ) :
    fbm006 noise x y ⟨octaves, persistence, lacunarity, scale⟩ =
      fbm011Gen noise (x * scale) (y * scale) octaves persistence lacunarity := by
  have h := fbmLoop_rescale noise x y persistence lacunarity scale octaves 0 1 1 0
  rw [mul_one] at h
  show (fbmLoop noise x y persistence lacunarity octaves 0 1 scale 0).1 /
      (fbmLoop noise x y persistence lacunarity octaves 0 1 scale 0).2 =
    (fbmLoop noise (x * scale) (y * scale) persistence lacunarity octaves 0 1 1 0).1 /
      (fbmLoop noise (x * scale) (y * scale) persistence lacunarity octaves 0 1 1 0).2
  rw [h]

/-! ## C9 -/

/-- C9: seed 0 is aliased to seed 42 by `(seed || 42) >>> 0`: the permutation
tables built for seeds 0 and 42 are identical, and hence so are the noise and
fBm outputs at every coordinate. -/
theorem seed_zero_aliases_seed42 :
    buildTable 0 = buildTable 42 ∧
    (∀ x y : ℚ, noise011 (buildTable 0) x y = noise011 (buildTable 42) x y) ∧
    (∀ (x y : ℚ) (octaves : ℕ) (persistence lacunarity : ℚ),
      fbmSeeded 0 x y octaves persistence lacunarity =
        fbmSeeded 42 x y octaves persistence lacunarity) := by
  have h : buildTable 0 = buildTable 42 := by
    unfold buildTable buildTableHalf
    norm_num
  exact ⟨h, fun x y => by rw [h], fun x y octaves persistence lacunarity => by
    unfold fbmSeeded; rw [h]⟩

/-! ## C4 -/

/-- C4 counterexample: at the invalid parameters `octaves = 2, scale = -1`
the specification's contract (`fbmChecked`, modelled from the spec's words)
demands a `ConfigurationError`, but the source `fbm` runs its loop to
completion and returns the plain value `0` with `maxAmp = 2`; at
`octaves = 0` the loop also completes, leaving `(value, maxAmp) = (0, 0)`
(so the JavaScript function returns `0/0 = NaN`), again without any error. -/
theorem fbm_no_validation_counterexample :
    fbmChecked (fun _ _ => (0 : ℚ)) 1 1 ⟨2, 1, 2, -1⟩ =
      Except.error ConfigurationError.invalidFBMParameters ∧
    fbmLoopResult (fun _ _ => (0 : ℚ)) 1 1 ⟨2, 1, 2, -1⟩ = (0, 2) ∧
    fbm006 (fun _ _ => (0 : ℚ)) 1 1 ⟨2, 1, 2, -1⟩ = 0 ∧
    fbmLoopResult (fun _ _ => (0 : ℚ)) 1 1 ⟨0, 1, 2, 1⟩ = (0, 0) := by
  refine ⟨?_, ?_, ?_, rfl⟩
  · norm_num [fbmChecked]
  · norm_num [fbmLoopResult, fbmLoop]
  · norm_num [fbm006, fbmLoopResult, fbmLoop]

/-- C4 amended: the source `fbm` performs no validation and can never raise:
for `octaves = 0` (the only `octaves < 1` case of the loop model) it runs
zero iterations and ends with `(value, maxAmp) = (0, 0)` — in JavaScript the
function then returns the indeterminate `0/0` (NaN), not an error — and for
every `octaves ≥ 1` with positive persistence (any scale, including
`scale ≤ 0`) the denominator `maxAmp` is positive, so an ordinary value is
returned. -/
theorem fbm_no_validation (noise : ℚ → ℚ → ℚ) (x y : ℚ)
    (persistence lacunarity scale : ℚ) (octaves : ℕ) :
    fbmLoopResult noise x y ⟨0, persistence, lacunarity, scale⟩ = (0, 0) ∧
    (0 < persistence → 1 ≤ octaves →
      0 < (fbmLoopResult noise x y ⟨octaves, persistence, lacunarity, scale⟩).2) := by
  refine ⟨rfl, ?_⟩
  intro hp hoct
  obtain ⟨k, rfl⟩ : ∃ k, octaves = k + 1 := ⟨octaves - 1, by omega⟩
  have hstep : fbmLoopResult noise x y ⟨k + 1, persistence, lacunarity, scale⟩ =
      fbmLoop noise x y persistence lacunarity k
        (0 + noise (x * scale) (y * scale) * 1) (1 * persistence) (scale * lacunarity)
        (0 + 1) := rfl
  rw [hstep]
  have := fbmLoop_snd_ge noise x y persistence lacunarity hp k
    (0 + noise (x * scale) (y * scale) * 1) (1 * persistence) (scale * lacunarity)
    (0 + 1) (by simpa using hp)
  linarith

/-- Witness for C4's amended theorem at `noise = 0, (x, y) = (0, 0)`,
`persistence = 1, lacunarity = 2, scale = 1`, octave counts 0 and 1. -/
theorem fbm_no_validation_witness :
    fbmLoopResult (fun _ _ => (0 : ℚ)) 0 0 ⟨0, 1, 2, 1⟩ = (0, 0) ∧
    0 < (fbmLoopResult (fun _ _ => (0 : ℚ)) 0 0 ⟨1, 1, 2, 1⟩).2 :=
  ⟨(fbm_no_validation (fun _ _ => 0) 0 0 1 2 1 0).1,
   (fbm_no_validation (fun _ _ => 0) 0 0 1 2 1 1).2 (by norm_num) (by norm_num)⟩

/-! ## C2 -/

/-- The single-pass vertex loop decomposes into the produced height list and
the two independent min/max folds over it. -/
theorem buildTerrain_decompose (sample : ℕ → ℚ) :
    ∀ (idxs : List ℕ) (l0 : List ℚ) (m0 M0 : Option ℚ),
      idxs.foldl
        (fun acc i =>
          let h := sample i
          (acc.1 ++ [h], updateMin acc.2.1 h, updateMax acc.2.2 h))
        (l0, m0, M0) =
      (l0 ++ idxs.map sample, (idxs.map sample).foldl updateMin m0,
        (idxs.map sample).foldl updateMax M0) := by
  intro idxs
  induction idxs with
  | nil => intro l0 m0 M0; simp
  | cons i t ih =>
      intro l0 m0 M0
      simp only [List.foldl_cons, List.map_cons]
      rw [ih]
      simp

/-- `buildTerrain` in terms of the mapped height list. -/
theorem buildTerrain_eq (sample : ℕ → ℚ) (count : ℕ) :
    buildTerrain sample count =
      ((List.range count).map sample,
        ((List.range count).map sample).foldl updateMin none,
        ((List.range count).map sample).foldl updateMax none) := by
  unfold buildTerrain
  rw [buildTerrain_decompose]
  simp

/-- The min fold started at `some v` returns an element of `v :: l` that is a
lower bound of `v` and of every element of `l`. -/
theorem foldl_updateMin_spec (l : List ℚ) :
    ∀ v : ℚ, ∃ m, l.foldl updateMin (some v) = some m ∧ m ≤ v ∧
      (m = v ∨ m ∈ l) ∧ ∀ h ∈ l, m ≤ h := by
  induction l with
  | nil => intro v; exact ⟨v, rfl, le_refl v, Or.inl rfl, by simp⟩
  | cons a t ih =>
      intro v
      simp only [List.foldl_cons]
      by_cases hav : a < v
      · have hu : updateMin (some v) a = some a := by simp [updateMin, hav]
        rw [hu]
        obtain ⟨m, hm, hma, hmem, hall⟩ := ih a
        refine ⟨m, hm, hma.trans hav.le, ?_, ?_⟩
        · rcases hmem with h | h
          · exact Or.inr (by simp [h])
          · exact Or.inr (List.mem_cons_of_mem _ h)
        · intro h hh
          rcases List.mem_cons.mp hh with rfl | hh
          · exact hma
          · exact hall h hh
      · have hu : updateMin (some v) a = some v := by simp [updateMin, hav]
        rw [hu]
        obtain ⟨m, hm, hmv, hmem, hall⟩ := ih v
        refine ⟨m, hm, hmv, ?_, ?_⟩
        · rcases hmem with h | h
          · exact Or.inl h
          · exact Or.inr (List.mem_cons_of_mem _ h)
        · intro h hh
          rcases List.mem_cons.mp hh with rfl | hh
          · exact hmv.trans (le_of_not_lt hav)
          · exact hall h hh

/-- Dual of `foldl_updateMin_spec` for the max fold. -/
theorem foldl_updateMax_spec (l : List ℚ) :
    ∀ v : ℚ, ∃ m, l.foldl updateMax (some v) = some m ∧ v ≤ m ∧
      (m = v ∨ m ∈ l) ∧ ∀ h ∈ l, h ≤ m := by
  induction l with
  | nil => intro v; exact ⟨v, rfl, le_refl v, Or.inl rfl, by simp⟩
  | cons a t ih =>
      intro v
      simp only [List.foldl_cons]
      by_cases hav : v < a
      · have hu : updateMax (some v) a = some a := by simp [updateMax, hav]
        rw [hu]
        obtain ⟨m, hm, hma, hmem, hall⟩ := ih a
        refine ⟨m, hm, hav.le.trans hma, ?_, ?_⟩
        · rcases hmem with h | h
          · exact Or.inr (by simp [h])
          · exact Or.inr (List.mem_cons_of_mem _ h)
        · intro h hh
          rcases List.mem_cons.mp hh with rfl | hh
          · exact hma
          · exact hall h hh
      · have hu : updateMax (some v) a = some v := by simp [updateMax, hav]
        rw [hu]
        obtain ⟨m, hm, hmv, hmem, hall⟩ := ih v
        refine ⟨m, hm, hmv, ?_, ?_⟩
        · rcases hmem with h | h
          · exact Or.inl h
          · exact Or.inr (List.mem_cons_of_mem _ h)
        · intro h hh
          rcases List.mem_cons.mp hh with rfl | hh
          · exact (le_of_not_lt hav).trans hmv
          · exact hall h hh

/-- The min fold over a nonempty list returns its true minimum: an attained
lower bound. -/
theorem observedMin_spec (l : List ℚ) (hne : l ≠ []) :
    ∃ m, l.foldl updateMin none = some m ∧ m ∈ l ∧ ∀ h ∈ l, m ≤ h := by
  obtain ⟨a, t, rfl⟩ := List.exists_cons_of_ne_nil hne
  simp only [List.foldl_cons]
  have hu : updateMin none a = some a := rfl
  rw [hu]
  obtain ⟨m, hm, hma, hmem, hall⟩ := foldl_updateMin_spec t a
  refine ⟨m, hm, ?_, ?_⟩
  · rcases hmem with h | h
    · exact by simp [h]
    · exact List.mem_cons_of_mem _ h
  · intro h hh
    rcases List.mem_cons.mp hh with rfl | hh
    · exact hma
    · exact hall h hh

/-- The max fold over a nonempty list returns its true maximum: an attained
upper bound. -/
theorem observedMax_spec (l : List ℚ) (hne : l ≠ []) :
    ∃ m, l.foldl updateMax none = some m ∧ m ∈ l ∧ ∀ h ∈ l, h ≤ m := by
  obtain ⟨a, t, rfl⟩ := List.exists_cons_of_ne_nil hne
  simp only [List.foldl_cons]
  have hu : updateMax none a = some a := rfl
  rw [hu]
  obtain ⟨m, hm, hma, hmem, hall⟩ := foldl_updateMax_spec t a
  refine ⟨m, hm, ?_, ?_⟩
  · rcases hmem with h | h
    · exact by simp [h]
    · exact List.mem_cons_of_mem _ h
  · intro h hh
    rcases List.mem_cons.mp hh with rfl | hh
    · exact hma
    · exact hall h hh

/-- C2: after the build loop over at least one vertex, the `minH`/`maxH` pair
written to the `uMinHeight`/`uMaxHeight` uniforms (both defined, extracted by
`Option.getD`) is exactly the pair of true extrema of the stored height
sequence: every stored height lies between them and both bounds are attained
by stored heights. -/
theorem buildTerrain_minmax_exact (sample : ℕ → ℚ) (count : ℕ) (hc : 1 ≤ count) :
    ((buildTerrain sample count).2.1.isSome ∧ (buildTerrain sample count).2.2.isSome) ∧
    (∀ h ∈ (buildTerrain sample count).1,
      (buildTerrain sample count).2.1.getD 0 ≤ h ∧
        h ≤ (buildTerrain sample count).2.2.getD 0) ∧
    (buildTerrain sample count).2.1.getD 0 ∈ (buildTerrain sample count).1 ∧
    (buildTerrain sample count).2.2.getD 0 ∈ (buildTerrain sample count).1 := by
  have heq := buildTerrain_eq sample count
  have hne : (List.range count).map sample ≠ [] := by
    simp only [ne_eq, List.map_eq_nil_iff, List.range_eq_nil]
    omega
  obtain ⟨mn, hmn, hmnMem, hmnAll⟩ := observedMin_spec _ hne
  obtain ⟨mx, hmx, hmxMem, hmxAll⟩ := observedMax_spec _ hne
  have h1 : (buildTerrain sample count).2.1 = some mn := by rw [heq]; exact hmn
  have h2 : (buildTerrain sample count).2.2 = some mx := by rw [heq]; exact hmx
  have h3 : (buildTerrain sample count).1 = (List.range count).map sample := by rw [heq]
  rw [h1, h2, h3]
  exact ⟨⟨rfl, rfl⟩, fun h hh => ⟨hmnAll h hh, hmxAll h hh⟩, hmnMem, hmxMem⟩

/-- Witness for C2 at the concrete build `sample i = i` over 3 vertices. -/
theorem buildTerrain_minmax_exact_witness :
    ((buildTerrain (fun i => (i : ℚ)) 3).2.1.isSome ∧
      (buildTerrain (fun i => (i : ℚ)) 3).2.2.isSome) ∧
    (buildTerrain (fun i => (i : ℚ)) 3).2.1.getD 0 ∈ (buildTerrain (fun i => (i : ℚ)) 3).1 ∧
    (buildTerrain (fun i => (i : ℚ)) 3).2.2.getD 0 ∈ (buildTerrain (fun i => (i : ℚ)) 3).1 :=
  ⟨(buildTerrain_minmax_exact (fun i => (i : ℚ)) 3 (by norm_num)).1,
   (buildTerrain_minmax_exact (fun i => (i : ℚ)) 3 (by norm_num)).2.2⟩

/-! ## C3 -/

/-- Evaluating the classifier at `t = 0`: the first branch fires and its
band-local fraction is `0`, so the result is the first band's start colour. -/
theorem biomeColor_zero : biomeColor 0 = deepWater := by
  norm_num [biomeColor, mixc, lerp]

/-- Evaluating the classifier at `t = 1`: every guard fails and the final
`return snow` fires. -/
theorem biomeColor_one : biomeColor 1 = snow := by
  norm_num [biomeColor]

/-- C3 counterexample: with `observedMin = observedMax = 0` and height
value `1`, the `part_011` normalization yields `t = 1`, not `0`, and the
classifier returns the snow colour, not the first band's start colour; the
`fragment-shader.ts` normalization divides by `observedMax - observedMin = 0`
(an undefined GLSL result, modelled as `none`) instead of yielding `t = 0`. -/
theorem degenerate_range_counterexample :
    tWeb 1 0 0 = 1 ∧ tWeb 1 0 0 ≠ 0 ∧ biomeColor (tWeb 1 0 0) = snow ∧
    tFrag 0 0 0 = none := by
  have h1 : tWeb 1 0 0 = 1 := by norm_num [tWeb, clampG]
  refine ⟨h1, by rw [h1]; norm_num, ?_, by norm_num [tFrag]⟩
  rw [h1]
  exact biomeColor_one

/-- C3 amended: in the degenerate case `observedMax == observedMin`, the
guarded `part_011` normalization divides by `max(0, 0.001) = 0.001` — never
by zero — and yields `t = 0` exactly for the heights `h ≤ observedMin` (in
particular for every height actually stored in a flat field, all equal to
`observedMin`), whereupon the classifier returns the first band's start
colour; for heights above `observedMin` it can yield a positive `t`.  The
unguarded `fragment-shader.ts` normalization instead divides by zero for
every height in this case (undefined result, modelled as `none`). -/
theorem degenerate_range_normalization (h mn : ℚ) (hle : h ≤ mn) :
    tWeb h mn mn = 0 ∧ biomeColor (tWeb h mn mn) = deepWater ∧
    tFrag h mn mn = none := by
  have ht : tWeb h mn mn = 0 := by
    unfold tWeb clampG
    have hd : mn - mn = 0 := by ring
    rw [hd]
    have hmax : max (0 : ℚ) 0.001 = 0.001 := by norm_num
    rw [hmax]
    have hnum : (h - mn) / 0.001 ≤ 0 :=
      div_nonpos_of_nonpos_of_nonneg (by linarith) (by norm_num)
    rw [max_eq_right hnum, min_eq_left (by norm_num : (0 : ℚ) ≤ 1)]
  refine ⟨ht, by rw [ht]; exact biomeColor_zero, ?_⟩
  unfold tFrag
  simp

/-- Witness for C3's amended theorem at `h = 0`, `observedMin = observedMax = 0`. -/
theorem degenerate_range_normalization_witness :
    tWeb 0 0 0 = 0 ∧ biomeColor (tWeb 0 0 0) = deepWater ∧ tFrag 0 0 0 = none :=
  degenerate_range_normalization 0 0 (le_refl 0)

/-! ## C6 -/

/-- The corner-gradient contribution exactly as the claim words it: with
`(u, v) = (x, y)` when bit 1 of the hashed index is `0` and `(u, v) = (y, x)`
when bit 1 is `1`, the contribution is
`(bit0 ? -u : u) + (bit1 ? -v : v)`. -/
def gradBits (hash : ℕ) (x y : ℚ) : ℚ :=
  let u := if hash / 2 % 2 = 1 then y else x
  let v := if hash / 2 % 2 = 1 then x else y
  (if hash % 2 = 1 then -u else u) + (if hash / 2 % 2 = 1 then -v else v)

/-- Masking commutes with the mask: `n &&& 3 = n % 4`. -/
theorem and_three_eq_mod_four (n : ℕ) : n &&& 3 = n % 4 := by
  have h := Nat.and_pow_two_sub_one_eq_mod n 2
  norm_num at h
  exact h

/-- C6: the source `grad` is determined by only the low 2 bits of the hashed
corner index and agrees with the claim's selection rule: bit 1 chooses
whether `x` or `y` plays the `u` role, bit 0 negates `u`, bit 1 negates `v`. -/
theorem grad_low_two_bits (hash : ℕ) (x y : ℚ) :
    grad hash x y = gradBits hash x y ∧ grad hash x y = grad (hash % 4) x y := by
  have h3 : hash &&& 3 = hash % 4 := and_three_eq_mod_four hash
  have h3' : hash % 4 &&& 3 = hash % 4 := by
    rw [and_three_eq_mod_four (hash % 4)]
    omega
  constructor
  · have hcases : hash % 4 = 0 ∨ hash % 4 = 1 ∨ hash % 4 = 2 ∨ hash % 4 = 3 := by omega
    rcases hcases with h | h | h | h
    · have hb0 : hash % 2 = 0 := by omega
      have hb1 : hash / 2 % 2 = 0 := by omega
      simp only [grad, gradBits, h3, h, hb0, hb1]
      norm_num
    · have hb0 : hash % 2 = 1 := by omega
      have hb1 : hash / 2 % 2 = 0 := by omega
      simp only [grad, gradBits, h3, h, hb0, hb1]
      norm_num
    · have hb0 : hash % 2 = 0 := by omega
      have hb1 : hash / 2 % 2 = 1 := by omega
      simp only [grad, gradBits, h3, h, hb0, hb1]
      norm_num
    · have hb0 : hash % 2 = 1 := by omega
      have hb1 : hash / 2 % 2 = 1 := by omega
      simp only [grad, gradBits, h3, h, hb0, hb1,
        show (3 : ℕ) &&& 1 = 1 from by decide, show (3 : ℕ) &&& 2 = 2 from by decide]
      norm_num
  · unfold grad
    rw [h3, h3']

/-! ## C8 -/

/-- Band 0 of the classifier contains `t` iff `0 ≤ t < 0.18`. -/
theorem bandContains_zero_iff (t : ℚ) : bandContains 0 t ↔ 0 ≤ t ∧ t < 0.18 := by
  have h : bandContains 0 t ↔ 0 ≤ t ∧ (t < 0.18 ∨ ((0 : ℕ) = 6 ∧ t ≤ 1)) := Iff.rfl
  rw [h]
  norm_num

/-- Band 1 of the classifier contains `t` iff `0.18 ≤ t < 0.25`. -/
theorem bandContains_one_iff (t : ℚ) : bandContains 1 t ↔ 0.18 ≤ t ∧ t < 0.25 := by
  have h : bandContains 1 t ↔ 0.18 ≤ t ∧ (t < 0.25 ∨ ((1 : ℕ) = 6 ∧ t ≤ 1)) := Iff.rfl
  rw [h]
  norm_num

/-- Band 2 of the classifier contains `t` iff `0.25 ≤ t < 0.38`. -/
theorem bandContains_two_iff (t : ℚ) : bandContains 2 t ↔ 0.25 ≤ t ∧ t < 0.38 := by
  have h : bandContains 2 t ↔ 0.25 ≤ t ∧ (t < 0.38 ∨ ((2 : ℕ) = 6 ∧ t ≤ 1)) := Iff.rfl
  rw [h]
  norm_num

/-- Band 3 of the classifier contains `t` iff `0.38 ≤ t < 0.58`. -/
theorem bandContains_three_iff (t : ℚ) : bandContains 3 t ↔ 0.38 ≤ t ∧ t < 0.58 := by
  have h : bandContains 3 t ↔ 0.38 ≤ t ∧ (t < 0.58 ∨ ((3 : ℕ) = 6 ∧ t ≤ 1)) := Iff.rfl
  rw [h]
  norm_num

/-- Band 4 of the classifier contains `t` iff `0.58 ≤ t < 0.72`. -/
theorem bandContains_four_iff (t : ℚ) : bandContains 4 t ↔ 0.58 ≤ t ∧ t < 0.72 := by
  have h : bandContains 4 t ↔ 0.58 ≤ t ∧ (t < 0.72 ∨ ((4 : ℕ) = 6 ∧ t ≤ 1)) := Iff.rfl
  rw [h]
  norm_num

/-- Band 5 of the classifier contains `t` iff `0.72 ≤ t < 0.88`. -/
theorem bandContains_five_iff (t : ℚ) : bandContains 5 t ↔ 0.72 ≤ t ∧ t < 0.88 := by
  have h : bandContains 5 t ↔ 0.72 ≤ t ∧ (t < 0.88 ∨ ((5 : ℕ) = 6 ∧ t ≤ 1)) := Iff.rfl
  rw [h]
  norm_num

/-- Band 6 (the last band) contains `t` iff `0.88 ≤ t ≤ 1`: it owns its right
endpoint. -/
theorem bandContains_six_iff (t : ℚ) : bandContains 6 t ↔ 0.88 ≤ t ∧ t ≤ 1 := by
  have h : bandContains 6 t ↔ 0.88 ≤ t ∧ (t < 1 ∨ ((6 : ℕ) = 6 ∧ t ≤ 1)) := Iff.rfl
  rw [h]
  constructor
  · rintro ⟨hlo, hd⟩
    refine ⟨hlo, ?_⟩
    rcases hd with hx | hx
    · linarith
    · exact hx.2
  · rintro ⟨hlo, hhi⟩
    exact ⟨hlo, Or.inr ⟨rfl, hhi⟩⟩

/-- C8: on `[0, 1]` the classifier is total and gap-free — every `t` lies in
exactly one of the seven bands read off the `biomeColor` branches, and
`biomeColor` returns that band's interpolated colour — and the endpoints are
exact: `biomeColor 0` is the first band's start colour (the deep-water colour
`(0.04, 0.12, 0.28)`) and `biomeColor 1` is the last band's end colour (the
snow colour `(0.92, 0.95, 1.00)`). -/
theorem biome_bands_partition (t : ℚ) (h0 : 0 ≤ t) (h1 : t ≤ 1) :
    (∃! i : ℕ, i < 7 ∧ bandContains i t) ∧
    (∀ i : ℕ, i < 7 → bandContains i t → biomeColor t = bandEval i t) ∧
    (biomeColor 0 = deepWater ∧ deepWater = (0.04, 0.12, 0.28)) ∧
    (biomeColor 1 = snow ∧ snow = (0.92, 0.95, 1.00)) := by
  have hrest : (biomeColor 0 = deepWater ∧ deepWater = (0.04, 0.12, 0.28)) ∧
      (biomeColor 1 = snow ∧ snow = (0.92, 0.95, 1.00)) :=
    ⟨⟨biomeColor_zero, rfl⟩, ⟨biomeColor_one, rfl⟩⟩
  by_cases c1 : t < 0.18
  · have hc : bandContains 0 t := (bandContains_zero_iff t).mpr ⟨h0, c1⟩
    have huniq : ∀ j : ℕ, j < 7 → bandContains j t → j = 0 := by
      intro j hj7 hcj
      interval_cases j
      · rfl
      · exfalso; rw [bandContains_one_iff] at hcj; linarith [hcj.1, hcj.2]
      · exfalso; rw [bandContains_two_iff] at hcj; linarith [hcj.1, hcj.2]
      · exfalso; rw [bandContains_three_iff] at hcj; linarith [hcj.1, hcj.2]
      · exfalso; rw [bandContains_four_iff] at hcj; linarith [hcj.1, hcj.2]
      · exfalso; rw [bandContains_five_iff] at hcj; linarith [hcj.1, hcj.2]
      · exfalso; rw [bandContains_six_iff] at hcj; linarith [hcj.1, hcj.2]
    have heval : biomeColor t = bandEval 0 t := by
      rw [show bandEval 0 t = mixc deepWater water ((t - 0) / (0.18 - 0)) from rfl]
      rw [show t - (0 : ℚ) = t from by ring, show (0.18 : ℚ) - 0 = 0.18 from by ring]
      simp only [biomeColor, if_pos c1]
    exact ⟨⟨0, ⟨by norm_num, hc⟩, fun j hj => huniq j hj.1 hj.2⟩,
      fun i hi hci => by rw [huniq i hi hci]; exact heval, hrest⟩
  · by_cases c2 : t < 0.25
    · have hc : bandContains 1 t := (bandContains_one_iff t).mpr ⟨by linarith, c2⟩
      have huniq : ∀ j : ℕ, j < 7 → bandContains j t → j = 1 := by
        intro j hj7 hcj
        interval_cases j
        · exfalso; rw [bandContains_zero_iff] at hcj; linarith [hcj.1, hcj.2]
        · rfl
        · exfalso; rw [bandContains_two_iff] at hcj; linarith [hcj.1, hcj.2]
        · exfalso; rw [bandContains_three_iff] at hcj; linarith [hcj.1, hcj.2]
        · exfalso; rw [bandContains_four_iff] at hcj; linarith [hcj.1, hcj.2]
        · exfalso; rw [bandContains_five_iff] at hcj; linarith [hcj.1, hcj.2]
        · exfalso; rw [bandContains_six_iff] at hcj; linarith [hcj.1, hcj.2]
      have heval : biomeColor t = bandEval 1 t := by
        rw [show bandEval 1 t = mixc water sand ((t - 0.18) / (0.25 - 0.18)) from rfl]
        rw [show (0.25 : ℚ) - 0.18 = 0.07 from by norm_num]
        simp only [biomeColor, if_neg c1, if_pos c2]
      exact ⟨⟨1, ⟨by norm_num, hc⟩, fun j hj => huniq j hj.1 hj.2⟩,
        fun i hi hci => by rw [huniq i hi hci]; exact heval, hrest⟩
    · by_cases c3 : t < 0.38
      · have hc : bandContains 2 t := (bandContains_two_iff t).mpr ⟨by linarith, c3⟩
        have huniq : ∀ j : ℕ, j < 7 → bandContains j t → j = 2 := by
          intro j hj7 hcj
          interval_cases j
          · exfalso; rw [bandContains_zero_iff] at hcj; linarith [hcj.1, hcj.2]
          · exfalso; rw [bandContains_one_iff] at hcj; linarith [hcj.1, hcj.2]
          · rfl
          · exfalso; rw [bandContains_three_iff] at hcj; linarith [hcj.1, hcj.2]
          · exfalso; rw [bandContains_four_iff] at hcj; linarith [hcj.1, hcj.2]
          · exfalso; rw [bandContains_five_iff] at hcj; linarith [hcj.1, hcj.2]
          · exfalso; rw [bandContains_six_iff] at hcj; linarith [hcj.1, hcj.2]
        have heval : biomeColor t = bandEval 2 t := by
          rw [show bandEval 2 t = mixc sand grass ((t - 0.25) / (0.38 - 0.25)) from rfl]
          rw [show (0.38 : ℚ) - 0.25 = 0.13 from by norm_num]
          simp only [biomeColor, if_neg c1, if_neg c2, if_pos c3]
        exact ⟨⟨2, ⟨by norm_num, hc⟩, fun j hj => huniq j hj.1 hj.2⟩,
          fun i hi hci => by rw [huniq i hi hci]; exact heval, hrest⟩
      · by_cases c4 : t < 0.58
        · have hc : bandContains 3 t := (bandContains_three_iff t).mpr ⟨by linarith, c4⟩
          have huniq : ∀ j : ℕ, j < 7 → bandContains j t → j = 3 := by
            intro j hj7 hcj
            interval_cases j
            · exfalso; rw [bandContains_zero_iff] at hcj; linarith [hcj.1, hcj.2]
            · exfalso; rw [bandContains_one_iff] at hcj; linarith [hcj.1, hcj.2]
            · exfalso; rw [bandContains_two_iff] at hcj; linarith [hcj.1, hcj.2]
            · rfl
            · exfalso; rw [bandContains_four_iff] at hcj; linarith [hcj.1, hcj.2]
            · exfalso; rw [bandContains_five_iff] at hcj; linarith [hcj.1, hcj.2]
            · exfalso; rw [bandContains_six_iff] at hcj; linarith [hcj.1, hcj.2]
          have heval : biomeColor t = bandEval 3 t := by
            rw [show bandEval 3 t = mixc grass forest ((t - 0.38) / (0.58 - 0.38)) from rfl]
            rw [show (0.58 : ℚ) - 0.38 = 0.20 from by norm_num]
            simp only [biomeColor, if_neg c1, if_neg c2, if_neg c3, if_pos c4]
          exact ⟨⟨3, ⟨by norm_num, hc⟩, fun j hj => huniq j hj.1 hj.2⟩,
            fun i hi hci => by rw [huniq i hi hci]; exact heval, hrest⟩
        · by_cases c5 : t < 0.72
          · have hc : bandContains 4 t := (bandContains_four_iff t).mpr ⟨by linarith, c5⟩
            have huniq : ∀ j : ℕ, j < 7 → bandContains j t → j = 4 := by
              intro j hj7 hcj
              interval_cases j
              · exfalso; rw [bandContains_zero_iff] at hcj; linarith [hcj.1, hcj.2]
              · exfalso; rw [bandContains_one_iff] at hcj; linarith [hcj.1, hcj.2]
              · exfalso; rw [bandContains_two_iff] at hcj; linarith [hcj.1, hcj.2]
              · exfalso; rw [bandContains_three_iff] at hcj; linarith [hcj.1, hcj.2]
              · rfl
              · exfalso; rw [bandContains_five_iff] at hcj; linarith [hcj.1, hcj.2]
              · exfalso; rw [bandContains_six_iff] at hcj; linarith [hcj.1, hcj.2]
            have heval : biomeColor t = bandEval 4 t := by
              rw [show bandEval 4 t = mixc forest rock ((t - 0.58) / (0.72 - 0.58)) from rfl]
              rw [show (0.72 : ℚ) - 0.58 = 0.14 from by norm_num]
              simp only [biomeColor, if_neg c1, if_neg c2, if_neg c3, if_neg c4, if_pos c5]
            exact ⟨⟨4, ⟨by norm_num, hc⟩, fun j hj => huniq j hj.1 hj.2⟩,
              fun i hi hci => by rw [huniq i hi hci]; exact heval, hrest⟩
          · by_cases c6 : t < 0.88
            · have hc : bandContains 5 t := (bandContains_five_iff t).mpr ⟨by linarith, c6⟩
              have huniq : ∀ j : ℕ, j < 7 → bandContains j t → j = 5 := by
                intro j hj7 hcj
                interval_cases j
                · exfalso; rw [bandContains_zero_iff] at hcj; linarith [hcj.1, hcj.2]
                · exfalso; rw [bandContains_one_iff] at hcj; linarith [hcj.1, hcj.2]
                · exfalso; rw [bandContains_two_iff] at hcj; linarith [hcj.1, hcj.2]
                · exfalso; rw [bandContains_three_iff] at hcj; linarith [hcj.1, hcj.2]
                · exfalso; rw [bandContains_four_iff] at hcj; linarith [hcj.1, hcj.2]
                · rfl
                · exfalso; rw [bandContains_six_iff] at hcj; linarith [hcj.1, hcj.2]
              have heval : biomeColor t = bandEval 5 t := by
                rw [show bandEval 5 t = mixc rock snow ((t - 0.72) / (0.88 - 0.72)) from rfl]
                rw [show (0.88 : ℚ) - 0.72 = 0.16 from by norm_num]
                simp only [biomeColor, if_neg c1, if_neg c2, if_neg c3, if_neg c4,
                  if_neg c5, if_pos c6]
              exact ⟨⟨5, ⟨by norm_num, hc⟩, fun j hj => huniq j hj.1 hj.2⟩,
                fun i hi hci => by rw [huniq i hi hci]; exact heval, hrest⟩
            · have hc : bandContains 6 t := (bandContains_six_iff t).mpr ⟨by linarith, h1⟩
              have huniq : ∀ j : ℕ, j < 7 → bandContains j t → j = 6 := by
                intro j hj7 hcj
                interval_cases j
                · exfalso; rw [bandContains_zero_iff] at hcj; linarith [hcj.1, hcj.2]
                · exfalso; rw [bandContains_one_iff] at hcj; linarith [hcj.1, hcj.2]
                · exfalso; rw [bandContains_two_iff] at hcj; linarith [hcj.1, hcj.2]
                · exfalso; rw [bandContains_three_iff] at hcj; linarith [hcj.1, hcj.2]
                · exfalso; rw [bandContains_four_iff] at hcj; linarith [hcj.1, hcj.2]
                · exfalso; rw [bandContains_five_iff] at hcj; linarith [hcj.1, hcj.2]
                · rfl
              have heval : biomeColor t = bandEval 6 t := by
                rw [show bandEval 6 t = snow from rfl]
                simp only [biomeColor, if_neg c1, if_neg c2, if_neg c3, if_neg c4,
                  if_neg c5, if_neg c6]
              exact ⟨⟨6, ⟨by norm_num, hc⟩, fun j hj => huniq j hj.1 hj.2⟩,
                fun i hi hci => by rw [huniq i hi hci]; exact heval, hrest⟩

/-- Witness for C8 at `t = 1/2`: the classifier's endpoint exactness,
obtained by applying the partition theorem at a concrete interior point. -/
theorem biome_bands_partition_witness :
    (biomeColor 0 = deepWater ∧ deepWater = (0.04, 0.12, 0.28)) ∧
    (biomeColor 1 = snow ∧ snow = (0.92, 0.95, 1.00)) :=
  (biome_bands_partition (1 / 2) (by norm_num) (by norm_num)).2.2

/-! ## C5 -/

/-- Moving the `m`-th element of a list to the front while writing `a` into
its slot is a permutation of putting `a` in front. -/
theorem getD_cons_set_perm (a d : ℕ) :
    ∀ (t : List ℕ) (m : ℕ), m < t.length → (t.getD m d :: t.set m a).Perm (a :: t) := by
  intro t
  induction t with
  | nil => intro m hm; simp at hm
  | cons c u ih =>
      intro m hm
      cases m with
      | zero =>
          simp only [List.getD_cons_zero, List.set_cons_zero]
          exact List.Perm.swap a c u
      | succ k =>
          simp only [List.getD_cons_succ, List.set_cons_succ]
          have hk : k < u.length := by simpa using hm
          exact ((List.Perm.swap c (u.getD k d) (u.set k a)).trans
            ((ih k hk).cons c)).trans (List.Perm.swap a c u)

/-- The destructuring swap is a permutation whenever both indices are in
range. -/
theorem swapL_perm :
    ∀ (l : List ℕ) (i j : ℕ), i < l.length → j < l.length → (swapL l i j).Perm l := by
  intro l
  induction l with
  | nil => intro i j hi _; simp at hi
  | cons c t ih =>
      intro i j hi hj
      cases i with
      | zero =>
          cases j with
          | zero =>
              simp only [swapL, List.getD_cons_zero, List.set_cons_zero]
              exact List.Perm.refl _
          | succ m =>
              simp only [swapL, List.getD_cons_zero, List.getD_cons_succ,
                List.set_cons_zero, List.set_cons_succ]
              exact getD_cons_set_perm c 0 t m (by simpa using hj)
      | succ n =>
          cases j with
          | zero =>
              simp only [swapL, List.getD_cons_zero, List.getD_cons_succ,
                List.set_cons_zero, List.set_cons_succ]
              exact getD_cons_set_perm c 0 t n (by simpa using hi)
          | succ m =>
              simp only [swapL, List.getD_cons_succ, List.set_cons_succ]
              have h := ih n m (by simpa using hi) (by simpa using hj)
              simp only [swapL] at h
              exact h.cons c

/-- The Fisher–Yates loop only permutes its input: every intermediate swap has
in-range indices (`j = s % (i + 1) ≤ i`). -/
theorem shuffleFrom_perm :
    ∀ (i : ℕ) (l : List ℕ) (s : ℕ), i < l.length → (shuffleFrom l s i).Perm l := by
  intro i
  induction i with
  | zero => intro l s _; exact List.Perm.refl l
  | succ k ih =>
      intro l s h
      show (shuffleFrom (swapL l (k + 1) (lcgStep s % (k + 1 + 1))) (lcgStep s) k).Perm l
      have hj : lcgStep s % (k + 1 + 1) < l.length :=
        lt_of_lt_of_le (Nat.mod_lt _ (by omega)) (by omega)
      have hswap := swapL_perm l (k + 1) (lcgStep s % (k + 1 + 1)) h hj
      have hk : k < (swapL l (k + 1) (lcgStep s % (k + 1 + 1))).length := by
        rw [hswap.length_eq]; omega
      exact (ih _ (lcgStep s) hk).trans hswap

/-- The seeded table is a doubled permutation of `0..255`. -/
theorem buildTable_shape (seed : ℤ) :
    ∃ q : List ℕ, buildTable seed = q ++ q ∧ q.Perm (List.range 256) := by
  refine ⟨buildTableHalf seed, rfl, ?_⟩
  exact shuffleFrom_perm 255 _ _ (by simp)

set_option maxRecDepth 100000 in
/-- The fixed reference table has 256 entries. -/
theorem pFix_length : pFix.length = 256 := by decide

set_option maxRecDepth 100000 in
/-- The fixed reference table is a permutation of `0..255` (checked by
computation: 256 distinct entries, all below 256). -/
theorem pFix_perm : pFix.Perm (List.range 256) := by
  have hnodup : pFix.Nodup := by decide
  have hlen : pFix.length = 256 := pFix_length
  have hsub : pFix ⊆ List.range 256 := by
    intro x hx
    have hx256 : ∀ y ∈ pFix, y < 256 := by decide
    exact List.mem_range.mpr (hx256 x hx)
  exact (hnodup.subperm hsub).perm_of_length_le (by simp [hlen])

/-- The first half of a doubled 256-entry list. -/
theorem doubled_take (q : List ℕ) (hq : q.length = 256) : (q ++ q).take 256 = q := by
  rw [← hq]
  exact List.take_left q q

/-- In a doubled 256-entry list, entry `k + 256` equals entry `k`. -/
theorem doubled_getD (q : List ℕ) (hq : q.length = 256) (k : ℕ) (hk : k < 256) :
    (q ++ q).getD (k + 256) 0 = (q ++ q).getD k 0 := by
  rw [List.getD_eq_getElem?_getD, List.getD_eq_getElem?_getD,
    List.getElem?_append_right (by omega : q.length ≤ k + 256),
    List.getElem?_append_left (by omega : k < q.length), hq]
  norm_num

/-- C5: for every integer seed, the first 256 entries of the seeded table form
a permutation of `0..255` and entries `256..511` duplicate entries `0..255`
element-for-element; the same holds for the fixed reference table of
`perlin-noise.ts`.  The claim quantifies over every integer seed. -/
theorem gradientTable_permutation (seed : ℤ) :
    ((buildTable seed).take 256).Perm (List.range 256) ∧
    (∀ k, k < 256 → (buildTable seed).getD (k + 256) 0 = (buildTable seed).getD k 0) ∧
    (permFix.take 256).Perm (List.range 256) ∧
    (∀ k, k < 256 → permFix.getD (k + 256) 0 = permFix.getD k 0) := by
  obtain ⟨q, hq, hperm⟩ := buildTable_shape seed
  have hqlen : q.length = 256 := by
    rw [hperm.length_eq]; simp
  have hplen : pFix.length = 256 := pFix_length
  refine ⟨?_, ?_, ?_, ?_⟩
  · rw [hq, doubled_take q hqlen]; exact hperm
  · intro k hk; rw [hq]; exact doubled_getD q hqlen k hk
  · show ((pFix ++ pFix).take 256).Perm (List.range 256)
    rw [doubled_take pFix hplen]; exact pFix_perm
  · intro k hk
    show (pFix ++ pFix).getD (k + 256) 0 = (pFix ++ pFix).getD k 0
    exact doubled_getD pFix hplen k hk

/-- Witness for C5 at seed 7 and index 0: the duplication of the second half,
for both table variants. -/
theorem gradientTable_permutation_witness :
    (buildTable 7).getD 256 0 = (buildTable 7).getD 0 0 ∧
    permFix.getD 256 0 = permFix.getD 0 0 :=
  ⟨(gradientTable_permutation 7).2.1 0 (by norm_num),
   (gradientTable_permutation 7).2.2.2 0 (by norm_num)⟩
